import Mathlib

/-!
Shallow embedding of the cluster-map / PG-lifecycle core of
`src/crimson/osd/shard_services.cc` (crimson OSD shard services), together
with theorems settling the specification claims about it.

Conventions used throughout:
* epochs, pool ids, pg ids and byte-blob identities are `Nat`;
* a `bufferlist` is represented either by an opaque identity (`Nat`) or,
  where only its size matters, by its length in bytes (`Nat`);
* `std::map` fields are represented as association lists `List (Nat × V)`
  with at most one entry per key (the operations below mirror the
  `operator[]`, `erase`, `find` and `merge` member functions);
* futures are collapsed: a chain of `seastar` continuations becomes a plain
  function, a failed future becomes an `Option`/error constructor.
-/

set_option maxRecDepth 4000

namespace CrimsonOSD

/-! ## Association-list counterpart of `std::map` -/

/-- Mirrors `std::map::find`: the value stored under key `k`, if any. -/
def mapFind {V : Type} (l : List (Nat × V)) (k : Nat) : Option V :=
  match l with
  | [] => none
  | (k', v) :: rest => if k' = k then some v else mapFind rest k

/-- Mirrors `std::map::operator[] = v`: overwrite the entry for `k` in place
if present, otherwise add a fresh entry. -/
def mapInsert {V : Type} (l : List (Nat × V)) (k : Nat) (v : V) : List (Nat × V) :=
  match l with
  | [] => [(k, v)]
  | (k', v') :: rest =>
    if k' = k then (k, v) :: rest else (k', v') :: mapInsert rest k v

/-- Mirrors `std::map::erase(k)`. -/
def mapErase {V : Type} (l : List (Nat × V)) (k : Nat) : List (Nat × V) :=
  l.filter (fun e => decide (e.1 ≠ k))

/-- Mirrors `dst.merge(src)` on `std::map`: every entry of `src` whose key is
not already present in `dst` is moved into `dst`; entries whose key collides
with one already in `dst` are left behind in `src` (and are lost if the
caller then clears `src`). Returns the new contents of `dst`. -/
def mapMerge {V : Type} (dst src : List (Nat × V)) : List (Nat × V) :=
  dst ++ src.filter (fun e => (mapFind dst e.1).isNone)

/-- Number of entries stored under key `k`. -/
def countKey {V : Type} (l : List (Nat × V)) (k : Nat) : Nat :=
  (l.filter (fun e => decide (e.1 = k))).length

/-- Keys are pairwise distinct, as they are in a `std::map`. -/
def nodupKeys {V : Type} (l : List (Nat × V)) : Prop :=
  (l.map Prod.fst).Nodup

instance {V : Type} (l : List (Nat × V)) : Decidable (nodupKeys l) := by
  unfold nodupKeys
  infer_instance

/-- First-of-the-two option, used to state lookup laws for `mapMerge`. -/
def optOr {V : Type} (a b : Option V) : Option V :=
  match a with
  | some v => some v
  | none => b

/-! ## `OSDSingletonState::send_alive` (shard_services.cc) -/

/-- View of the fields of the current `OSDMap` that `send_alive` reads:
whether osd `whoami` exists in the map, its acknowledged `up_thru`, and the
map's epoch. -/
structure AliveMapView where
  exists_whoami : Bool
  up_thru : Nat
  epoch : Nat

/-- The `MOSDAlive` message `send_alive` hands to the monitor client:
`crimson::make_message<MOSDAlive>(osdmap->get_epoch(), want)`. -/
structure MOSDAliveMsg where
  map_epoch : Nat
  want : Nat

/-- `OSDSingletonState::send_alive(want)`. State is the `up_thru_wanted`
field; the result is the message sent to the monitor (if any) together with
the new `up_thru_wanted`. -/
def send_alive (m : AliveMapView) (up_thru_wanted : Nat) (want : Nat) :
    Option MOSDAliveMsg × Nat :=
  if want > up_thru_wanted then
    -- up_thru_wanted = want;
    if m.exists_whoami = false then
      (none, want)
    else if want > m.up_thru then
      (some ⟨m.epoch, want⟩, want)
    else
      (none, want)
  else
    (none, up_thru_wanted)

/-! ## `OSDSingletonState::load_map` / `load_map_bl` (shard_services.cc) -/

/-- Outcome of `load_map`: a freshly constructed empty `OSDMap` (the
`e == 0` path), a map decoded from the bytes `bl`, or a propagated
not-found failure of the backing store. -/
inductive LoadedMap where
  | freshEmpty
  | decoded (bl : Nat)
  | notFound

/-- `OSDMap::decode` on a byte blob, kept abstract: decoding `bl` yields the
map characterised by `bl`. -/
def decodeOSDMap (bl : Nat) : LoadedMap := .decoded bl

/-- `OSDSingletonState::load_map_bl(e)`: consult `map_bl_cache`; on a miss,
fall back to `meta_coll->load_map(e)` (the storage collaborator) and insert
the result into the cache. Returns the bytes found (`none` when the store
fails with not-found), the updated cache, and whether the storage
collaborator was consulted. -/
def load_map_bl (map_bl_cache store : List (Nat × Nat)) (e : Nat) :
    Option Nat × List (Nat × Nat) × Bool :=
  match mapFind map_bl_cache e with
  | some bl => (some bl, map_bl_cache, false)
  | none =>
    match mapFind store e with
    | some bl => (some bl, mapInsert map_bl_cache e bl, true)
    | none => (none, map_bl_cache, true)

/-- `OSDSingletonState::load_map(e)`: for `e = 0` return a freshly
constructed empty `OSDMap` without touching `load_map_bl` at all; otherwise
decode the bytes obtained from `load_map_bl e`. The two booleans record
whether the byte cache and the storage collaborator were consulted. -/
def load_map (map_bl_cache store : List (Nat × Nat)) (e : Nat) :
    LoadedMap × Bool × Bool :=
  if e = 0 then
    (.freshEmpty, false, false)
  else
    match load_map_bl map_bl_cache store e with
    | (some bl, _, s) => (decodeOSDMap bl, true, s)
    | (none, _, s) => (.notFound, true, s)

/-! ## `OSDSingletonState::trim_maps` (shard_services.cc) -/

/-- The superblock fields `trim_maps` touches: the persisted cluster-wide
trim lower bound and the retained map epochs (`superblock.maps`), kept as an
ascending list whose head is `get_oldest_map()`. -/
structure OSDSuperblock where
  cluster_osdmap_trim_lower_bound : Nat
  maps : List Nat
deriving DecidableEq

/-- `OSDSuperblock::get_oldest_map()`: the smallest retained epoch. -/
def get_oldest_map (sb : OSDSuperblock) : Nat := sb.maps.headD 0

/-- The while-loop of `trim_maps`: while the oldest retained epoch is below
`minE` and the transaction holds fewer than `target` ops
(`osd_target_transaction_size`), remove the full and the incremental
encoding of the oldest epoch (`meta_coll->remove_map` and
`remove_inc_map`, one transaction op each) and erase that epoch from the
superblock. Returns the final op count, the surviving epochs and the list
of removed epochs. -/
def trimLoop (target minE : Nat) : Nat → List Nat → Nat × List Nat × List Nat
  | ops, [] => (ops, [], [])
  | ops, oldest :: rest =>
    if oldest < minE ∧ ops < target then
      let r := trimLoop target minE (ops + 2) rest
      (r.1, r.2.1, oldest :: r.2.2)
    else
      (ops, oldest :: rest, [])

/-- `OSDSingletonState::trim_maps(t, superblock)`: with
`min = std::min(superblock.cluster_osdmap_trim_lower_bound,
osdmaps.cached_key_lower_bound())`, return unchanged when
`min <= superblock.get_oldest_map()`, else run the bounded trim loop.
`ops` is `t.get_num_ops()` on entry; the trailing
`ceph_assert(min <= osdmaps.cached_key_lower_bound())` holds by
construction of `min` and is omitted. -/
def trim_maps (osd_target_transaction_size cached_key_lower_bound ops : Nat)
    (sb : OSDSuperblock) : Nat × OSDSuperblock × List Nat :=
  let minE := Nat.min sb.cluster_osdmap_trim_lower_bound cached_key_lower_bound
  if minE ≤ get_oldest_map sb then
    (ops, sb, [])
  else
    let r := trimLoop osd_target_transaction_size minE ops sb.maps
    (r.1, { sb with maps := r.2.1 }, r.2.2)

/-! ## `OSDSingletonState::store_maps` (shard_services.cc) -/

/-- The portion of an `MOSDMap` message that `store_maps` reads: the claimed
last epoch and the full / incremental encodings it carries, as maps from
epoch to an opaque bufferlist id. -/
structure MOSDMapBatch where
  last : Nat
  maps : List (Nat × Nat)
  incremental_maps : List (Nat × Nat)

/-- Per-epoch outcome of the `store_maps` loop body. -/
inductive StoreAction where
  | storedFull (e : Nat) (bl : Nat)
  | storedInc (e : Nat) (bl : Nat)
  | skippedMissing (e : Nat)

/-- The epochs `start, start+1, ..., last` visited by the
`do_for_each(counting_iterator(start), counting_iterator(last + 1), ...)`. -/
def epochRange (start last : Nat) : List Nat :=
  (List.range (last + 1 - start)).map (fun i => start + i)

/-- Body of the `do_for_each` in `store_maps`: an epoch with a full encoding
is decoded and stored; failing that, an incremental encoding (guarded by
`ceph_assert(std::cmp_greater(e, 0u))`, modelled as the `none` outcome) is
applied on top of `load_map(e - 1)` and both the incremental and the
re-encoded full form are stored; an epoch with neither encoding only logs
`ERROR("MOSDMap lied about what maps it had?")` and the loop continues with
the next epoch. -/
def store_maps_loop (m : MOSDMapBatch) : List Nat → Option (List StoreAction)
  | [] => some []
  | e :: rest =>
    match mapFind m.maps e with
    | some bl =>
      (store_maps_loop m rest).map (fun acts => .storedFull e bl :: acts)
    | none =>
      match mapFind m.incremental_maps e with
      | some bl =>
        if e = 0 then none
        else (store_maps_loop m rest).map (fun acts => .storedInc e bl :: acts)
      | none =>
        (store_maps_loop m rest).map (fun acts => .skippedMissing e :: acts)

/-- `OSDSingletonState::store_maps(t, start, m)`: run the loop body on every
epoch in `[start, m->get_last()]`. -/
def store_maps (start : Nat) (m : MOSDMapBatch) : Option (List StoreAction) :=
  store_maps_loop m (epochRange start m.last)

/-! ## pg_temp bookkeeping (`OSDSingletonState::queue_want_pg_temp`,
`remove_want_pg_temp`, `requeue_pg_temp`, `send_pg_temp`) -/

/-- The value type of the pg_temp maps: `struct pg_temp_t { acting; forced }`. -/
structure PgTempT where
  acting : List Int
  forced : Bool
deriving DecidableEq

/-- The two pg_temp bookkeeping maps of `OSDSingletonState`. -/
structure PgTempState where
  pg_temp_wanted : List (Nat × PgTempT)
  pg_temp_pending : List (Nat × PgTempT)

/-- `OSDSingletonState::queue_want_pg_temp(pgid, want, forced)`: record the
request in `pg_temp_wanted` unless an identical unforced request for `pgid`
is already pending. -/
def queue_want_pg_temp (s : PgTempState) (pgid : Nat) (want : List Int)
    (forced : Bool) : PgTempState :=
  match mapFind s.pg_temp_pending pgid with
  | none =>
    { s with pg_temp_wanted := mapInsert s.pg_temp_wanted pgid ⟨want, forced⟩ }
  | some p =>
    if p.acting ≠ want ∨ forced = true then
      { s with pg_temp_wanted := mapInsert s.pg_temp_wanted pgid ⟨want, forced⟩ }
    else
      s

/-- `OSDSingletonState::remove_want_pg_temp(pgid)`: drop `pgid` from both
maps. -/
def remove_want_pg_temp (s : PgTempState) (pgid : Nat) : PgTempState :=
  { pg_temp_wanted := mapErase s.pg_temp_wanted pgid,
    pg_temp_pending := mapErase s.pg_temp_pending pgid }

/-- `OSDSingletonState::requeue_pg_temp()`:
`pg_temp_wanted.merge(pg_temp_pending); pg_temp_pending.clear();`.
Note `std::map::merge` leaves colliding keys behind in the source map, so a
pending entry whose PG id is already wanted is dropped by the clear. -/
def requeue_pg_temp (s : PgTempState) : PgTempState :=
  { pg_temp_wanted := mapMerge s.pg_temp_wanted s.pg_temp_pending,
    pg_temp_pending := [] }

/-- An `MOSDPGTemp` message as filled in by `send_pg_temp`: its `forced`
flag and its `pg_temp` payload of `(pgid, acting)` pairs. -/
structure MOSDPGTempMsg where
  forced : Bool
  pg_temp : List (Nat × List Int)

/-- `OSDSingletonState::send_pg_temp()`: batch the wanted entries into at
most two messages `ms[2]` indexed by the forced flag, move the wanted
entries into pending with `pg_temp_pending.merge(pg_temp_wanted)` (colliding
keys keep the old pending value and the wanted value is discarded by the
subsequent `pg_temp_wanted.clear()`), and send the non-null messages. -/
def send_pg_temp (s : PgTempState) : List MOSDPGTempMsg × PgTempState :=
  if s.pg_temp_wanted = [] then
    ([], s)
  else
    let m0 := s.pg_temp_wanted.filter (fun e => !e.2.forced)
    let m1 := s.pg_temp_wanted.filter (fun e => e.2.forced)
    let msgs :=
      (if m0.isEmpty then [] else
        [⟨false, m0.map (fun e => (e.1, e.2.acting))⟩]) ++
      (if m1.isEmpty then [] else
        [⟨true, m1.map (fun e => (e.1, e.2.acting))⟩])
    (msgs,
     { pg_temp_wanted := [],
       pg_temp_pending := mapMerge s.pg_temp_pending s.pg_temp_wanted })

/-! ## `ShardServices::handle_pg_create_info` (shard_services.cc) -/

/-- A PG identity `spg_t`: its pool id and the rest (seed and shard),
opaque here. -/
structure SpgT where
  pool : Nat
  rest : Nat

/-- The `pg_pool_t` flags `handle_pg_create_info` consults:
`is_crimson()` and `has_flag(pg_pool_t::FLAG_CREATING)`. -/
structure PgPoolT where
  crimson : Bool
  creating : Bool

/-- `ceph_release_t::octopus`. -/
def octopus : Nat := 15

/-- View of an `OSDMap` as consulted by `handle_pg_create_info`:
`is_up_acting_osd_shard(pgid, whoami)` already specialised to this OSD,
`get_pg_pool`, and `require_osd_release`. -/
structure PGMapView where
  is_up_acting_osd_shard : SpgT → Bool
  get_pg_pool : Nat → Option PgPoolT
  require_osd_release : Nat

/-- The fields of `PGCreateInfo` the validation reads. -/
structure PGCreateInfo where
  pgid : SpgT
  by_mon : Bool

/-- Terminal outcome of `handle_pg_create_info`. -/
inductive CreateOutcome where
  | cancelled
  | created
  | crash

/-- Observable effects of one `handle_pg_create_info` run: the outcome, and
whether `pg_map.pg_creation_canceled(pgid)` and the collection-creating
`make_pg(startmap, pgid, true)` were invoked. -/
structure CreateEffects where
  outcome : CreateOutcome
  pg_creation_canceled : Bool
  collection_created : Bool

/-- `ShardServices::handle_pg_create_info(info)` with `startmap` the map of
`info->epoch` and `current` the map returned by `get_map()`: cancel (null
PG for all waiters, `pg_creation_canceled`, no collection) when the PG is
not up/acting for this OSD in either map, or — for a monitor-driven create
— when the pool is gone, lacks the crimson flag, or lacks the CREATING
flag; otherwise construct the PG through `make_pg(startmap, pgid, true)`,
which issues the single `create_new_collection` call. `crash` models the
`ceph_assert(require_osd_release >= octopus)` between the crimson and the
CREATING checks. -/
def handle_pg_create_info (current startmap : PGMapView)
    (info : PGCreateInfo) : CreateEffects :=
  if current.is_up_acting_osd_shard info.pgid = false ∨
     startmap.is_up_acting_osd_shard info.pgid = false then
    ⟨.cancelled, true, false⟩
  else if info.by_mon = true then
    match current.get_pg_pool info.pgid.pool with
    | none => ⟨.cancelled, true, false⟩
    | some pool =>
      if pool.crimson = false then
        ⟨.cancelled, true, false⟩
      else if current.require_osd_release < octopus then
        ⟨.crash, false, false⟩
      else if pool.creating = false then
        ⟨.cancelled, true, false⟩
      else
        ⟨.created, false, true⟩
  else
    ⟨.created, false, true⟩

/-! ## PG creation arbitration (`ShardServices::get_or_create_pg`) -/

/-- Modelled from the spec: the per-identity slot of the per-shard `PGMap`
placement table (`crimson/osd/pg_map.h`, not among the sources here): a PG
identity is absent, being created with some number of registered waiters,
or present (spec section 4.3). -/
inductive PGSlot where
  | absent
  | creating (waiters : Nat)
  | present (pg : Nat)

/-- Modelled from the spec: the observable state of the creation
arbitration for one PG identity: its slot, the number of constructions
driven (`handle_pg_create_info` launches after `set_creating`), the number
of collection-creation calls the storage layer received, and the outcomes
observed by resolved callers (`some pg` shared reference, `none` for
absent/cancelled), in resolution order. -/
structure PGArbState where
  slot : PGSlot
  constructions : Nat
  collection_calls : Nat
  outcomes : List (Option Nat)

/-- Events against one PG identity: a `get_or_create_pg` call carrying
creation info (calls are serialized on the owning shard's reactor), or
completion of the in-flight creation — `some pg` when validation passed
(the single driver made exactly one `create_new_collection` call) or
`none` when it was cancelled. -/
inductive PGArbEvent where
  | call
  | complete (res : Option Nat)

/-- Modelled from the spec: `get_or_create_pg(trigger, pgid, info)` runs
`pg_map.wait_for_pg`; the first caller finding the slot absent becomes the
driver (`set_creating` then `handle_pg_create_info`), later callers during
creation only register as waiters, callers finding the PG present resolve
immediately with it; completion resolves every registered waiter with the
same result. -/
def pgArbStep (s : PGArbState) (ev : PGArbEvent) : PGArbState :=
  match ev with
  | .call =>
    match s.slot with
    | .absent =>
      { s with slot := .creating 1, constructions := s.constructions + 1 }
    | .creating n => { s with slot := .creating (n + 1) }
    | .present pg => { s with outcomes := s.outcomes ++ [some pg] }
  | .complete res =>
    match s.slot with
    | .creating n =>
      { slot := match res with | some pg => .present pg | none => .absent,
        constructions := s.constructions,
        collection_calls := s.collection_calls +
          (match res with | some _ => 1 | none => 0),
        outcomes := s.outcomes ++ List.replicate n res }
    | _ => s

/-- Run a sequence of arbitration events. -/
def pgArbRun (s : PGArbState) (evs : List PGArbEvent) : PGArbState :=
  evs.foldl pgArbStep s

/-- The initial slot state for an unknown PG identity. -/
def pgArbInit : PGArbState := ⟨.absent, 0, 0, []⟩

/-! ## `OSDSingletonState::build_incremental_map_msg` and
`send_incremental_map` (shard_services.cc) -/

/-- Configuration values read by the map-message builder. -/
structure MapMsgConf where
  osd_map_message_max : Int
  osd_map_message_max_bytes : Int

/-- Map-service state read by the builder: the superblock bounds and the
stored encodings per epoch — `full_len e` is the byte length of the full
encoding (`load_map_bl`, always available), `inc_len e` the byte length of
the incremental encoding when one is stored (`load_inc_map_bl` fails
otherwise and `load_map_bls` falls back to the full map). -/
structure MapMsgEnv where
  cluster_osdmap_trim_lower_bound : Nat
  newest_map : Nat
  full_len : Nat → Nat
  inc_len : Nat → Option Nat

/-- `OSDMapService::encoded_osdmap_type_t`. -/
inductive EncType where
  | fullmap
  | incmap

/-- The entry `load_map_bls` produces for epoch `e`: the incremental
encoding when stored, else the full encoding. -/
def loadedEntry (env : MapMsgEnv) (e : Nat) : Nat × EncType × Nat :=
  match env.inc_len e with
  | some l => (e, EncType.incmap, l)
  | none => (e, EncType.fullmap, env.full_len e)

/-- `OSDSingletonState::load_map_bls(first, last)`: the loaded entries for
the epochs `first..last` in order. -/
def load_map_bls (env : MapMsgEnv) (first last : Nat) :
    List (Nat × EncType × Nat) :=
  (List.range (last + 1 - first)).map (fun i => loadedEntry env (first + i))

/-- The built `MOSDMap` message: the gap-fill full map (inserted into
`m->maps` outside the byte budget when `first` lies below the trim lower
bound) and the budget-limited entries, split into full-map entries
(`m->maps`) and incremental entries (`m->incremental_maps`), each an
`(epoch, byte length)` pair. -/
structure BuiltMOSDMap where
  gap_map : Option (Nat × Nat)
  maps : List (Nat × Nat)
  incremental_maps : List (Nat × Nat)

/-- The byte-budget loop of `build_incremental_map_msg`: for each loaded
entry in epoch order, first subtract its length from the remaining budget
(`map_message_max_bytes -= val.second.length()`), break as soon as the
budget went negative, and only otherwise add the entry to the message —
so an entry that overflows the budget is dropped together with the rest. -/
def mapMsgByteLoop (budget : Int) :
    List (Nat × EncType × Nat) → List (Nat × Nat) × List (Nat × Nat)
  | [] => ([], [])
  | (e, ty, len) :: rest =>
    if budget - len < 0 then ([], [])
    else
      let r := mapMsgByteLoop (budget - len) rest
      match ty with
      | .fullmap => ((e, len) :: r.1, r.2)
      | .incmap => (r.1, (e, len) :: r.2)

/-- Continuation of `build_incremental_map_msg` after the gap-fill step —
the `maybe_handle_mapgap.then(...)` body: `first` and `map_message_max` as
left by the gap handling, `gap` the gap-fill entry already placed in
`m->maps`. When `first > last` (possible only after a map gap) the message
is returned as is, asserting it is non-empty; otherwise the epochs
`[first, min(first + map_message_max, last)]` are loaded and pushed through
the byte-budget loop. `none` models the `ceph_assert(!m->maps.empty())`
crash and the `ceph_assert(first <= last)` inside `load_map_bls`. -/
def build_msg_rest (env : MapMsgEnv) (max_bytes : Int)
    (gap : Option (Nat × Nat)) (first : Nat) (mmm : Int) (last : Nat) :
    Option BuiltMOSDMap :=
  if first > last then
    -- first may be later than last in the case of map gap
    if gap.isSome then some ⟨gap, [], []⟩ else none
  else
    let upper : Int := if ((last : Int) - first) > mmm then first + mmm else last
    if upper < (first : Int) then none
    else
      let r := mapMsgByteLoop max_bytes (load_map_bls env first upper.toNat)
      some ⟨gap, r.1, r.2⟩

/-- `OSDSingletonState::build_incremental_map_msg(first, last)`: when
`first` lies below `cluster_osdmap_trim_lower_bound`, gap-fill with the
full map of that bound (placed in `m->maps` outside the byte budget),
consume one unit of the epoch budget `osd_map_message_max` and advance
`first` past the bound; then continue with `build_msg_rest`. -/
def build_incremental_map_msg (conf : MapMsgConf) (env : MapMsgEnv)
    (first last : Nat) : Option BuiltMOSDMap :=
  if first < env.cluster_osdmap_trim_lower_bound then
    build_msg_rest env conf.osd_map_message_max_bytes
      (some (env.cluster_osdmap_trim_lower_bound,
             env.full_len env.cluster_osdmap_trim_lower_bound))
      (env.cluster_osdmap_trim_lower_bound + 1)
      (conf.osd_map_message_max - 1) last
  else
    build_msg_rest env conf.osd_map_message_max_bytes none
      first conf.osd_map_message_max last

/-- `OSDSingletonState::send_incremental_map(conn, first)`: with
`to = osdmap->get_epoch()`, raise `first` to
`to - osd_map_share_max_epochs` when `to` exceeds `first` by more than that
configured count, then build the message for `[first, to]` (the send to the
connection is external). Returns the clamped `first` and the built
message. -/
def send_incremental_map (conf : MapMsgConf) (env : MapMsgEnv)
    (osd_map_share_max_epochs : Int) (current_epoch first : Nat) :
    Nat × Option BuiltMOSDMap :=
  let first' :=
    if current_epoch > first ∧
       ((current_epoch : Int) - first) > osd_map_share_max_epochs then
      ((current_epoch : Int) - osd_map_share_max_epochs).toNat
    else first
  (first', build_incremental_map_msg conf env first' current_epoch)

/-- Total byte length of the listed message entries. -/
def sumLens (l : List (Nat × Nat)) : Nat := (l.map Prod.snd).sum

/-- A concrete pool carrying both the crimson and the CREATING flag. -/
def c8Pool : PgPoolT := ⟨true, true⟩

/-- A map view in which every PG is up/acting here and every pool is
`c8Pool`, at release 17. -/
def c8Map : PGMapView := ⟨fun _ => true, fun _ => some c8Pool, 17⟩

/-- A map view in which no PG is up/acting on this OSD, at release 17. -/
def c8MapStale : PGMapView := ⟨fun _ => false, fun _ => some c8Pool, 17⟩

/-- The empty pg_temp bookkeeping state. -/
def pgTempEmpty : PgTempState := ⟨[], []⟩

/-- State after queueing `(pgid 7, acting [1, 2], unforced)` and flushing:
the request sits in `pg_temp_pending`. -/
def pgTempS1 : PgTempState :=
  (send_pg_temp (queue_want_pg_temp pgTempEmpty 7 [1, 2] false)).2

/-- State after additionally queueing a changed request
`(pgid 7, acting [3], unforced)` while the old one is still pending. -/
def pgTempS2 : PgTempState := queue_want_pg_temp pgTempS1 7 [3] false

end CrimsonOSD

namespace CrimsonOSD

/-! ## Helper lemmas about the association-list map operations -/

theorem mapFind_append {V : Type} (a b : List (Nat × V)) (k : Nat) :
    mapFind (a ++ b) k = optOr (mapFind a k) (mapFind b k) := by
  induction a with
  | nil => simp [mapFind, optOr]
  | cons hd tl ih =>
    rcases hd with ⟨k', v⟩
    by_cases h : k' = k
    · simp [mapFind, h, optOr]
    · simp [mapFind, h, ih]

theorem mapFind_filter_isNone {V : Type} (d l : List (Nat × V)) (k : Nat) :
    mapFind (l.filter (fun e => (mapFind d e.1).isNone)) k =
      if (mapFind d k).isNone then mapFind l k else none := by
  induction l with
  | nil => simp [mapFind]
  | cons hd tl ih =>
    rcases hd with ⟨k', v⟩
    by_cases hk : k' = k
    · subst hk
      by_cases hd' : (mapFind d k').isNone
      · simp [List.filter_cons, hd', mapFind, ih]
      · simp [List.filter_cons, hd', mapFind, ih]
    · by_cases hd' : (mapFind d k').isNone
      · simp [List.filter_cons, hd', mapFind, hk, ih]
      · simp [List.filter_cons, hd', mapFind, hk, ih]

theorem mapFind_mapMerge {V : Type} (d s : List (Nat × V)) (k : Nat) :
    mapFind (mapMerge d s) k = optOr (mapFind d k) (mapFind s k) := by
  unfold mapMerge
  rw [mapFind_append, mapFind_filter_isNone]
  rcases h : mapFind d k with _ | v
  · simp [h, optOr]
  · simp [h, optOr]

theorem mapInsert_mapInsert_same {V : Type} (l : List (Nat × V)) (k : Nat)
    (v : V) : mapInsert (mapInsert l k v) k v = mapInsert l k v := by
  induction l with
  | nil => simp [mapInsert]
  | cons hd tl ih =>
    rcases hd with ⟨k', v'⟩
    by_cases h : k' = k
    · simp [mapInsert, h]
    · simp [mapInsert, h, ih]

theorem countKey_cons {V : Type} (k' : Nat) (v : V) (tl : List (Nat × V))
    (k : Nat) :
    countKey ((k', v) :: tl) k = (if k' = k then 1 else 0) + countKey tl k := by
  by_cases h : k' = k <;> simp [countKey, List.filter_cons, h] <;> omega

theorem countKey_eq_zero_of_not_mem {V : Type} (l : List (Nat × V)) (k : Nat)
    (h : k ∉ l.map Prod.fst) : countKey l k = 0 := by
  induction l with
  | nil => rfl
  | cons hd tl ih =>
    rcases hd with ⟨k', v⟩
    simp only [List.map_cons, List.mem_cons] at h
    push_neg at h
    have hne : ¬ (k' = k) := fun hc => h.1 hc.symm
    rw [countKey_cons, if_neg hne, ih h.2]

theorem countKey_le_one_of_nodup {V : Type} (l : List (Nat × V)) (k : Nat)
    (h : nodupKeys l) : countKey l k ≤ 1 := by
  induction l with
  | nil => exact Nat.zero_le 1
  | cons hd tl ih =>
    rcases hd with ⟨k', v⟩
    simp only [nodupKeys, List.map_cons, List.nodup_cons] at h
    rw [countKey_cons]
    by_cases hk : k' = k
    · subst hk
      rw [if_pos rfl, countKey_eq_zero_of_not_mem tl k' h.1]
    · rw [if_neg hk]
      have := ih h.2
      omega

theorem countKey_mapInsert_self {V : Type} (l : List (Nat × V)) (k : Nat)
    (v : V) (h : nodupKeys l) : countKey (mapInsert l k v) k = 1 := by
  induction l with
  | nil => simp [mapInsert, countKey, List.filter_cons]
  | cons hd tl ih =>
    rcases hd with ⟨k', v'⟩
    simp only [nodupKeys, List.map_cons, List.nodup_cons] at h
    by_cases hk : k' = k
    · subst hk
      have hins : mapInsert ((k', v') :: tl) k' v = (k', v) :: tl := by
        simp [mapInsert]
      rw [hins, countKey_cons, if_pos rfl, countKey_eq_zero_of_not_mem tl k' h.1]
    · have hins : mapInsert ((k', v') :: tl) k v = (k', v') :: mapInsert tl k v := by
        simp [mapInsert, hk]
      rw [hins, countKey_cons, if_neg hk]
      have := ih h.2
      omega

/-! ## Helper lemmas about `send_pg_temp` -/

theorem send_pg_temp_wanted_empty (s : PgTempState) :
    (send_pg_temp s).2.pg_temp_wanted = [] := by
  unfold send_pg_temp
  by_cases h : s.pg_temp_wanted = []
  · simp [h]
  · simp [h]

theorem send_pg_temp_len_le_two (s : PgTempState) :
    (send_pg_temp s).1.length ≤ 2 := by
  unfold send_pg_temp
  by_cases h : s.pg_temp_wanted = []
  · simp [h]
  · simp only [h, if_false]
    split_ifs <;> simp

theorem send_pg_temp_pending_find (s : PgTempState) (k : Nat) :
    mapFind (send_pg_temp s).2.pg_temp_pending k =
      optOr (mapFind s.pg_temp_pending k) (mapFind s.pg_temp_wanted k) := by
  unfold send_pg_temp
  by_cases h : s.pg_temp_wanted = []
  · rcases hf : mapFind s.pg_temp_pending k with _ | v <;>
      simp [h, hf, mapFind, optOr]
  · simp only [h, if_false]
    exact mapFind_mapMerge s.pg_temp_pending s.pg_temp_wanted k

theorem send_pg_temp_msgs_from_wanted (s : PgTempState) :
    ∀ mg ∈ (send_pg_temp s).1, ∀ pr ∈ mg.pg_temp,
      ∃ t : PgTempT, (pr.1, t) ∈ s.pg_temp_wanted ∧
        t.acting = pr.2 ∧ t.forced = mg.forced := by
  unfold send_pg_temp
  by_cases h : s.pg_temp_wanted = []
  · simp [h]
  · simp only [h, if_false]
    intro mg hmg
    rcases List.mem_append.mp hmg with hmg' | hmg' <;>
    · split_ifs at hmg' with hie
      · exact absurd hmg' (by simp)
      · have hmg'' := List.mem_singleton.mp hmg'
        subst hmg''
        intro pr hpr
        simp only [List.mem_map] at hpr
        rcases hpr with ⟨e, he, hpe⟩
        rcases List.mem_filter.mp he with ⟨hew, hef⟩
        refine ⟨e.2, ?_, ?_, ?_⟩
        · rw [← hpe]
          simpa using hew
        · rw [← hpe]
        · simp_all

theorem send_pg_temp_covers_wanted (s : PgTempState) :
    ∀ e ∈ s.pg_temp_wanted, ∃ mg ∈ (send_pg_temp s).1,
      mg.forced = e.2.forced ∧ (e.1, e.2.acting) ∈ mg.pg_temp := by
  intro e he
  unfold send_pg_temp
  have h : ¬ s.pg_temp_wanted = [] := by
    rintro hh
    rw [hh] at he
    simp at he
  simp only [h, if_false]
  by_cases hf : e.2.forced
  · have hmem : e ∈ s.pg_temp_wanted.filter (fun e => e.2.forced) :=
      List.mem_filter.mpr ⟨he, by simp [hf]⟩
    have hne : (s.pg_temp_wanted.filter (fun e => e.2.forced)).isEmpty = false := by
      rcases hlist : s.pg_temp_wanted.filter (fun e => e.2.forced) with _ | ⟨a, tl⟩
      · rw [hlist] at hmem
        exact absurd hmem (by simp)
      · rw [hlist]
        rfl
    refine ⟨⟨true, (s.pg_temp_wanted.filter (fun e => e.2.forced)).map
      (fun e => (e.1, e.2.acting))⟩, ?_, by simp [hf], ?_⟩
    · apply List.mem_append.mpr
      right
      simp [hne]
    · exact List.mem_map.mpr ⟨e, hmem, rfl⟩
  · have hmem : e ∈ s.pg_temp_wanted.filter (fun e => !e.2.forced) :=
      List.mem_filter.mpr ⟨he, by simp [hf]⟩
    have hne : (s.pg_temp_wanted.filter (fun e => !e.2.forced)).isEmpty = false := by
      rcases hlist : s.pg_temp_wanted.filter (fun e => !e.2.forced) with _ | ⟨a, tl⟩
      · rw [hlist] at hmem
        exact absurd hmem (by simp)
      · rw [hlist]
        rfl
    refine ⟨⟨false, (s.pg_temp_wanted.filter (fun e => !e.2.forced)).map
      (fun e => (e.1, e.2.acting))⟩, ?_, by simp [Bool.not_eq_true] at hf; simp [hf], ?_⟩
    · apply List.mem_append.mpr
      left
      simp [hne]
    · exact List.mem_map.mpr ⟨e, hmem, rfl⟩

/-! ## Theorems for claims C5 and C6 -/

/-- C5 counterexample: from the reachable state `pgTempS2` — built by
queueing `(7, [1, 2], unforced)`, flushing it, then queueing the changed
request `(7, [3], unforced)` — a `send_pg_temp` flush does NOT move the
wanted entry `(7, [3])` into `pg_temp_pending`: `std::map::merge` keeps the
stale pending value `[1, 2]` and the wanted value is discarded, refuting
"a send_pg_temp flush moves every wanted entry into pending". -/
theorem send_pg_temp_drops_conflicting_wanted_entry :
    mapFind pgTempS2.pg_temp_wanted 7 = some ⟨[3], false⟩ ∧
    (send_pg_temp pgTempS2).2.pg_temp_wanted = [] ∧
    mapFind (send_pg_temp pgTempS2).2.pg_temp_pending 7 = some ⟨[1, 2], false⟩ ∧
    mapFind (send_pg_temp pgTempS2).2.pg_temp_pending 7 ≠ some ⟨[3], false⟩ :=
  ⟨rfl, rfl, rfl, by decide⟩

/-- C5 (amended): queueing the same `(pgid, acting, forced)` twice before a
flush has exactly the effect of queueing it once, and (for the well-formed
map states) leaves at most one wanted entry for `pgid` — exactly one
whenever no request for `pgid` is pending; a `send_pg_temp` flush empties
the wanted map, sends the wanted entries to the monitor in at most two
batched messages partitioned by the forced flag, and moves each wanted
entry into pending unless its PG id is already pending, in which case the
old pending value is kept and the flushed value is dropped from the
bookkeeping. -/
theorem queue_and_send_pg_temp_behaviour
    (s : PgTempState) (pgid : Nat) (want : List Int) (forced : Bool) :
    queue_want_pg_temp (queue_want_pg_temp s pgid want forced) pgid want forced
      = queue_want_pg_temp s pgid want forced ∧
    (nodupKeys s.pg_temp_wanted →
      countKey (queue_want_pg_temp s pgid want forced).pg_temp_wanted pgid ≤ 1) ∧
    (nodupKeys s.pg_temp_wanted → mapFind s.pg_temp_pending pgid = none →
      countKey (queue_want_pg_temp s pgid want forced).pg_temp_wanted pgid = 1) ∧
    (send_pg_temp s).2.pg_temp_wanted = [] ∧
    (send_pg_temp s).1.length ≤ 2 ∧
    (∀ mg ∈ (send_pg_temp s).1, ∀ pr ∈ mg.pg_temp,
      ∃ t : PgTempT, (pr.1, t) ∈ s.pg_temp_wanted ∧
        t.acting = pr.2 ∧ t.forced = mg.forced) ∧
    (∀ e ∈ s.pg_temp_wanted, ∃ mg ∈ (send_pg_temp s).1,
      mg.forced = e.2.forced ∧ (e.1, e.2.acting) ∈ mg.pg_temp) ∧
    (∀ k, mapFind (send_pg_temp s).2.pg_temp_pending k =
      optOr (mapFind s.pg_temp_pending k) (mapFind s.pg_temp_wanted k)) := by
  refine ⟨?_, ?_, ?_, send_pg_temp_wanted_empty s, send_pg_temp_len_le_two s,
    send_pg_temp_msgs_from_wanted s, send_pg_temp_covers_wanted s,
    send_pg_temp_pending_find s⟩
  · unfold queue_want_pg_temp
    rcases hp : mapFind s.pg_temp_pending pgid with _ | p
    · simp [hp, mapInsert_mapInsert_same]
    · by_cases hc : p.acting ≠ want ∨ forced = true
      · simp [hp, hc, mapInsert_mapInsert_same]
      · simp [hp, hc]
  · intro hnd
    unfold queue_want_pg_temp
    rcases hp : mapFind s.pg_temp_pending pgid with _ | p
    · simpa using Nat.le_of_eq
        (countKey_mapInsert_self s.pg_temp_wanted pgid ⟨want, forced⟩ hnd)
    · by_cases hc : p.acting ≠ want ∨ forced = true
      · simpa [hc] using Nat.le_of_eq
          (countKey_mapInsert_self s.pg_temp_wanted pgid ⟨want, forced⟩ hnd)
      · simpa [hc] using countKey_le_one_of_nodup s.pg_temp_wanted pgid hnd
  · intro hnd hp
    unfold queue_want_pg_temp
    rw [hp]
    simpa using countKey_mapInsert_self s.pg_temp_wanted pgid ⟨want, forced⟩ hnd

/-- C5 witness: queueing `(5, [1, 2], unforced)` on the empty state leaves
exactly one wanted entry for PG 5. -/
theorem queue_and_send_pg_temp_behaviour_witness :
    countKey (queue_want_pg_temp pgTempEmpty 5 [1, 2] false).pg_temp_wanted 5 = 1 :=
  (queue_and_send_pg_temp_behaviour pgTempEmpty 5 [1, 2] false).2.2.1
    (by decide) (by decide)

/-- C6 counterexample: in the reachable state `pgTempS2` — queue
`(7, [1, 2], unforced)`, flush, then queue the changed request
`(7, [3], unforced)` — PG id 7 appears in BOTH `pg_temp_wanted` and
`pg_temp_pending`, refuting the claimed disjointness invariant. -/
theorem pg_temp_wanted_pending_overlap :
    (mapFind pgTempS2.pg_temp_wanted 7).isSome = true ∧
    (mapFind pgTempS2.pg_temp_pending 7).isSome = true :=
  ⟨rfl, rfl⟩

/-- C6 (amended): a PG id can appear in both pg_temp maps at once (after
queueing a changed request for a PG whose earlier request is still
pending); `requeue_pg_temp` leaves `pg_temp_pending` empty, is idempotent,
and merges the pending entries back into wanted in the key-respecting
sense: a wanted key keeps its (newer) value while every pending entry whose
PG id is not already wanted is moved into wanted verbatim. -/
theorem requeue_pg_temp_behaviour (s : PgTempState) :
    requeue_pg_temp (requeue_pg_temp s) = requeue_pg_temp s ∧
    (requeue_pg_temp s).pg_temp_pending = [] ∧
    (∀ k, mapFind (requeue_pg_temp s).pg_temp_wanted k =
      optOr (mapFind s.pg_temp_wanted k) (mapFind s.pg_temp_pending k)) ∧
    (∀ e ∈ s.pg_temp_pending, mapFind s.pg_temp_wanted e.1 = none →
      e ∈ (requeue_pg_temp s).pg_temp_wanted) := by
  refine ⟨?_, rfl, ?_, ?_⟩
  · unfold requeue_pg_temp mapMerge
    simp
  · intro k
    exact mapFind_mapMerge s.pg_temp_wanted s.pg_temp_pending k
  · intro e he hnone
    unfold requeue_pg_temp mapMerge
    simp only []
    apply List.mem_append.mpr
    right
    exact List.mem_filter.mpr ⟨he, by simp [hnone]⟩

/-- C6 witness: with `(7, [1, 2], unforced)` pending and nothing wanted
(state `pgTempS1`), `requeue_pg_temp` moves that entry back into the wanted
map. -/
theorem requeue_pg_temp_behaviour_witness :
    (7, (⟨[1, 2], false⟩ : PgTempT)) ∈ (requeue_pg_temp pgTempS1).pg_temp_wanted :=
  (requeue_pg_temp_behaviour pgTempS1).2.2.2 (7, ⟨[1, 2], false⟩)
    (by decide) (by decide)

/-! ## Theorems for claim C1 (`trim_maps`) -/

theorem trimLoop_removed_lt (target minE : Nat) (ops : Nat) (ms : List Nat) :
    ∀ e ∈ (trimLoop target minE ops ms).2.2, e < minE := by
  induction ms generalizing ops with
  | nil => simp [trimLoop]
  | cons hd tl ih =>
    by_cases h : hd < minE ∧ ops < target
    · rw [trimLoop, if_pos h]
      intro e he
      rcases List.mem_cons.mp he with rfl | he'
      · exact h.1
      · exact ih (ops + 2) e he'
    · rw [trimLoop, if_neg h]
      simp

theorem trimLoop_conserves (target minE : Nat) (ops : Nat) (ms : List Nat) :
    (trimLoop target minE ops ms).2.2 ++ (trimLoop target minE ops ms).2.1 = ms := by
  induction ms generalizing ops with
  | nil => simp [trimLoop]
  | cons hd tl ih =>
    by_cases h : hd < minE ∧ ops < target
    · rw [trimLoop, if_pos h]
      simpa using ih (ops + 2)
    · rw [trimLoop, if_neg h]
      simp

/-- C1 counterexample: with per-transaction op budget
`osd_target_transaction_size = 4`, floor 5 and cache lower bound 5 held
fixed (a non-increasing floor), a first `trim_maps` call on retained epochs
`[1, 2, 3, 4, 5]` stops early after two removals (each removal enqueues two
transaction ops), and a second call on a fresh transaction removes two more
epochs — repeated trim calls with a non-increasing floor are therefore not
idempotent, refuting the last part of the claim. -/
theorem trim_maps_budget_breaks_idempotence :
    (trim_maps 4 5 0 ⟨5, [1, 2, 3, 4, 5]⟩).2.1 = ⟨5, [3, 4, 5]⟩ ∧
    (trim_maps 4 5 0 ⟨5, [3, 4, 5]⟩).2.1 = ⟨5, [5]⟩ ∧
    (trim_maps 4 5 0 ⟨5, [3, 4, 5]⟩).2.1 ≠ ⟨5, [3, 4, 5]⟩ :=
  ⟨rfl, rfl, by decide⟩

/-- C1 (amended): with `min = min(floor, cached lower bound)`, `trim_maps`
removes only epochs strictly below `min`, touches nothing else (the removed
epochs followed by the survivors are exactly the old retained epochs, so
`oldest_retained_epoch` never decreases and never drops below `min` once
reached); once `min ≤ get_oldest_map` a call is a complete no-op, so
repeated calls with a non-increasing floor are idempotent provided the
earlier call was not cut short by the transaction-op budget; a
budget-limited call leaves the oldest epoch below `min` and a later call
continues trimming. -/
theorem trim_maps_bounded_and_stable
    (target cacheLb ops : Nat) (sb : OSDSuperblock) :
    (∀ e ∈ (trim_maps target cacheLb ops sb).2.2,
      e < Nat.min sb.cluster_osdmap_trim_lower_bound cacheLb) ∧
    ((trim_maps target cacheLb ops sb).2.2 ++
      (trim_maps target cacheLb ops sb).2.1.maps = sb.maps) ∧
    (Nat.min sb.cluster_osdmap_trim_lower_bound cacheLb ≤ get_oldest_map sb →
      trim_maps target cacheLb ops sb = (ops, sb, [])) ∧
    (sb.maps.Sorted (· ≤ ·) → (trim_maps target cacheLb ops sb).2.1.maps ≠ [] →
      get_oldest_map sb ≤ get_oldest_map (trim_maps target cacheLb ops sb).2.1) := by
  by_cases hg : Nat.min sb.cluster_osdmap_trim_lower_bound cacheLb ≤ get_oldest_map sb
  · rw [trim_maps, if_pos hg]
    exact ⟨by simp, rfl, fun _ => rfl, fun _ _ => Nat.le_refl _⟩
  · rw [trim_maps, if_neg hg]
    refine ⟨?_, ?_, fun hc => absurd hc hg, ?_⟩
    · exact trimLoop_removed_lt _ _ ops sb.maps
    · exact trimLoop_conserves _ _ ops sb.maps
    · intro hsort hne
      have hne' : (trimLoop target
          (Nat.min sb.cluster_osdmap_trim_lower_bound cacheLb) ops sb.maps).2.1
          ≠ [] := hne
      show get_oldest_map sb ≤ List.headD (trimLoop target
        (Nat.min sb.cluster_osdmap_trim_lower_bound cacheLb) ops sb.maps).2.1 0
      have hcons := trimLoop_conserves target
        (Nat.min sb.cluster_osdmap_trim_lower_bound cacheLb) ops sb.maps
      rcases hm : (trimLoop target
          (Nat.min sb.cluster_osdmap_trim_lower_bound cacheLb) ops sb.maps).2.1
        with _ | ⟨h', tl'⟩
      · exact absurd hm hne'
      · rw [hm] at hcons
        have hmem : h' ∈ sb.maps := by
          rw [← hcons]
          exact List.mem_append.mpr (Or.inr (List.mem_cons_self _ _))
        have hle : ∀ x ∈ sb.maps, get_oldest_map sb ≤ x := by
          intro x hx
          rcases hsb : sb.maps with _ | ⟨o, rest⟩
          · rw [hsb] at hx
            exact absurd hx (by simp)
          · have hold : get_oldest_map sb = o := by
              rw [get_oldest_map, hsb]
              rfl
            rw [hsb] at hx hsort
            rw [hold]
            rcases List.mem_cons.mp hx with rfl | hx'
            · exact Nat.le_refl _
            · exact (List.sorted_cons.mp hsort).1 x hx'
        exact hle h' hmem

/-- C1 witness: on retained epochs `[1, 2, 7]` with floor 5, cache lower
bound 5 and a generous budget, the surviving oldest epoch (7) is no smaller
than the previous oldest (1). -/
theorem trim_maps_bounded_and_stable_witness :
    get_oldest_map (⟨5, [1, 2, 7]⟩ : OSDSuperblock) ≤
      get_oldest_map (trim_maps 100 5 0 ⟨5, [1, 2, 7]⟩).2.1 :=
  (trim_maps_bounded_and_stable 100 5 0 ⟨5, [1, 2, 7]⟩).2.2.2
    (by decide) (by decide)

/-! ## Theorems for claim C2 (`store_maps`) -/

theorem mem_epochRange {start last e : Nat} (h : e ∈ epochRange start last) :
    start ≤ e ∧ e ≤ last := by
  unfold epochRange at h
  simp only [List.mem_map, List.mem_range] at h
  rcases h with ⟨i, hi, rfl⟩
  have h2 : i + start ≤ last := Nat.lt_succ_iff.mp (Nat.lt_sub_iff_add_lt.mp hi)
  exact ⟨Nat.le_add_right start i, by rw [Nat.add_comm]; exact h2⟩

theorem store_maps_loop_total (m : MOSDMapBatch) (l : List Nat)
    (hl : ∀ e ∈ l, 1 ≤ e) :
    ∃ acts, store_maps_loop m l = some acts ∧ acts.length = l.length ∧
      (∀ e ∈ l, mapFind m.maps e = none → mapFind m.incremental_maps e = none →
        StoreAction.skippedMissing e ∈ acts) := by
  induction l with
  | nil => exact ⟨[], rfl, rfl, by simp⟩
  | cons e rest ih =>
    obtain ⟨acts, hacts, hlen, hmem⟩ :=
      ih (fun x hx => hl x (List.mem_cons_of_mem e hx))
    rcases hf : mapFind m.maps e with _ | bl
    · rcases hi : mapFind m.incremental_maps e with _ | bl
      · refine ⟨.skippedMissing e :: acts, ?_, by simp [hlen], ?_⟩
        · rw [store_maps_loop, hf, hi, hacts]
          rfl
        · intro x hx hxf hxi
          rcases List.mem_cons.mp hx with rfl | hx'
          · exact List.mem_cons_self _ _
          · exact List.mem_cons_of_mem _ (hmem x hx' hxf hxi)
      · have he : ¬ e = 0 := by
          have := hl e (List.mem_cons_self e rest)
          omega
        refine ⟨.storedInc e bl :: acts, ?_, by simp [hlen], ?_⟩
        · rw [store_maps_loop, hf, hi, hacts]
          simp [he]
        · intro x hx hxf hxi
          rcases List.mem_cons.mp hx with rfl | hx'
          · rw [hxi] at hi
            cases hi
          · exact List.mem_cons_of_mem _ (hmem x hx' hxf hxi)
    · refine ⟨.storedFull e bl :: acts, ?_, by simp [hlen], ?_⟩
      · rw [store_maps_loop, hf, hacts]
        rfl
      · intro x hx hxf hxi
        rcases List.mem_cons.mp hx with rfl | hx'
        · rw [hxf] at hf
          cases hf
        · exact List.mem_cons_of_mem _ (hmem x hx' hxf hxi)

/-- C2 counterexample: a batch claiming the contiguous range `[1, 2]` whose
epoch 2 has neither a full nor an incremental encoding is NOT failed:
`store_maps` completes successfully, storing epoch 1 and recording epoch 2
as skipped (the code only logs `MOSDMap lied about what maps it had?` and
continues), refuting the claimed fatal-to-the-batch propagation. -/
theorem store_maps_skips_missing_epoch :
    store_maps 1 ⟨2, [(1, 100)], []⟩ =
      some [.storedFull 1 100, .skippedMissing 2] ∧
    mapFind (⟨2, [(1, 100)], []⟩ : MOSDMapBatch).maps 2 = none ∧
    mapFind (⟨2, [(1, 100)], []⟩ : MOSDMapBatch).incremental_maps 2 = none :=
  ⟨rfl, rfl, rfl⟩

/-- C2 (amended): for every batch and every start epoch `start ≥ 1`,
`store_maps` completes successfully; an epoch in the claimed range
`[start, m.last]` that carries neither a full nor an incremental encoding
is logged and skipped (recorded as `skippedMissing`) while the remaining
epochs are still processed — exactly one action is recorded per claimed
epoch and the failure is not propagated to the caller. -/
theorem store_maps_never_fails_and_skips
    (start : Nat) (m : MOSDMapBatch) (hs : 1 ≤ start) :
    ∃ acts, store_maps start m = some acts ∧
      acts.length = (epochRange start m.last).length ∧
      (∀ e ∈ epochRange start m.last,
        mapFind m.maps e = none → mapFind m.incremental_maps e = none →
        StoreAction.skippedMissing e ∈ acts) :=
  store_maps_loop_total m (epochRange start m.last)
    (fun e he => Nat.le_trans hs (mem_epochRange he).1)

/-- C2 witness: the amended statement evaluated on the concrete batch of
the counterexample. -/
theorem store_maps_never_fails_and_skips_witness :
    ∃ acts, store_maps 1 ⟨2, [(1, 100)], []⟩ = some acts ∧
      acts.length = (epochRange 1 2).length ∧
      (∀ e ∈ epochRange 1 2,
        mapFind (⟨2, [(1, 100)], []⟩ : MOSDMapBatch).maps e = none →
        mapFind (⟨2, [(1, 100)], []⟩ : MOSDMapBatch).incremental_maps e = none →
        StoreAction.skippedMissing e ∈ acts) :=
  store_maps_never_fails_and_skips 1 ⟨2, [(1, 100)], []⟩ (by decide)

/-! ## Theorems for claim C8 (`handle_pg_create_info`) -/

/-- C8: provided the running map satisfies the release assertion
(`require_osd_release ≥ octopus`), `handle_pg_create_info` resolves as a
cancelled creation — `pg_creation_canceled` invoked, a null PG returned to
every waiter, and no on-disk collection created — exactly when validation
fails: the PG is not up/acting for this OSD in the current or the start
map, or, for a monitor-driven create, the pool no longer exists, lacks the
crimson flag, or lacks the CREATING flag; the run never crashes, and every
cancelled outcome carries the cancel effects rather than an error. -/
theorem handle_pg_create_info_cancels_iff_validation_fails
    (current startmap : PGMapView) (info : PGCreateInfo)
    (hrel : octopus ≤ current.require_osd_release) :
    (handle_pg_create_info current startmap info =
        ⟨.cancelled, true, false⟩ ↔
      (current.is_up_acting_osd_shard info.pgid = false ∨
       startmap.is_up_acting_osd_shard info.pgid = false ∨
       (info.by_mon = true ∧
         (current.get_pg_pool info.pgid.pool = none ∨
          (∃ p, current.get_pg_pool info.pgid.pool = some p ∧
            (p.crimson = false ∨ p.creating = false)))))) ∧
    (handle_pg_create_info current startmap info).outcome ≠ .crash ∧
    ((handle_pg_create_info current startmap info).outcome = .cancelled →
      (handle_pg_create_info current startmap info).pg_creation_canceled = true ∧
      (handle_pg_create_info current startmap info).collection_created = false) := by
  have hrel' : ¬ current.require_osd_release < octopus := Nat.not_lt.mpr hrel
  cases hca : current.is_up_acting_osd_shard info.pgid with
  | false =>
    have hval : handle_pg_create_info current startmap info =
        ⟨.cancelled, true, false⟩ := by
      simp [handle_pg_create_info, hca]
    rw [hval]
    exact ⟨iff_of_true rfl (Or.inl rfl), by simp, fun _ => ⟨rfl, rfl⟩⟩
  | true =>
    cases hsa : startmap.is_up_acting_osd_shard info.pgid with
    | false =>
      have hval : handle_pg_create_info current startmap info =
          ⟨.cancelled, true, false⟩ := by
        simp [handle_pg_create_info, hca, hsa]
      rw [hval]
      exact ⟨iff_of_true rfl (Or.inr (Or.inl rfl)), by simp,
        fun _ => ⟨rfl, rfl⟩⟩
    | true =>
      cases hbm : info.by_mon with
      | false =>
        have hval : handle_pg_create_info current startmap info =
            ⟨.created, false, true⟩ := by
          simp [handle_pg_create_info, hca, hsa, hbm]
        rw [hval]
        refine ⟨iff_of_false (by simp) ?_, by simp, by simp⟩
        rintro (h1 | h1 | ⟨h1, -⟩) <;> exact Bool.noConfusion h1
      | true =>
        rcases hp : current.get_pg_pool info.pgid.pool with _ | p
        · have hval : handle_pg_create_info current startmap info =
              ⟨.cancelled, true, false⟩ := by
            simp [handle_pg_create_info, hca, hsa, hbm, hp]
          rw [hval]
          exact ⟨iff_of_true rfl (Or.inr (Or.inr ⟨rfl, Or.inl rfl⟩)),
            by simp, fun _ => ⟨rfl, rfl⟩⟩
        · cases hcr : p.crimson with
          | false =>
            have hval : handle_pg_create_info current startmap info =
                ⟨.cancelled, true, false⟩ := by
              simp [handle_pg_create_info, hca, hsa, hbm, hp, hcr]
            rw [hval]
            exact ⟨iff_of_true rfl
              (Or.inr (Or.inr ⟨rfl, Or.inr ⟨p, rfl, Or.inl hcr⟩⟩)),
              by simp, fun _ => ⟨rfl, rfl⟩⟩
          | true =>
            cases hcg : p.creating with
            | false =>
              have hval : handle_pg_create_info current startmap info =
                  ⟨.cancelled, true, false⟩ := by
                simp [handle_pg_create_info, hca, hsa, hbm, hp, hcr, hrel', hcg]
              rw [hval]
              exact ⟨iff_of_true rfl
                (Or.inr (Or.inr ⟨rfl, Or.inr ⟨p, rfl, Or.inr hcg⟩⟩)),
                by simp, fun _ => ⟨rfl, rfl⟩⟩
            | true =>
              have hval : handle_pg_create_info current startmap info =
                  ⟨.created, false, true⟩ := by
                simp [handle_pg_create_info, hca, hsa, hbm, hp, hcr, hrel', hcg]
              rw [hval]
              refine ⟨iff_of_false (by simp) ?_, by simp, by simp⟩
              rintro (h1 | h1 | ⟨-, h2 | ⟨q, hq, hq'⟩⟩)
              · exact Bool.noConfusion h1
              · exact Bool.noConfusion h1
              · exact Option.noConfusion h2
              · injection hq with hq
                subst hq
                rcases hq' with h3 | h3
                · rw [hcr] at h3
                  exact Bool.noConfusion h3
                · rw [hcg] at h3
                  exact Bool.noConfusion h3

/-- C8 witness: a monitor-driven create whose PG is no longer up/acting in
the current map resolves as cancelled with the cancel effects. -/
theorem handle_pg_create_info_cancels_iff_validation_fails_witness :
    handle_pg_create_info c8MapStale c8Map ⟨⟨1, 0⟩, true⟩ =
      ⟨.cancelled, true, false⟩ :=
  ((handle_pg_create_info_cancels_iff_validation_fails c8MapStale c8Map
      ⟨⟨1, 0⟩, true⟩ (by decide)).1).mpr (Or.inl rfl)

/-! ## Theorems for claim C3 (`get_or_create_pg` arbitration) -/

theorem pgArbRun_calls_on_creating (k c cc : Nat) (out : List (Option Nat))
    (m : Nat) :
    pgArbRun ⟨.creating k, c, cc, out⟩ (List.replicate m .call) =
      ⟨.creating (k + m), c, cc, out⟩ := by
  induction m generalizing k with
  | zero => simp [pgArbRun]
  | succ m ih =>
    rw [List.replicate_succ]
    have hstep : pgArbStep ⟨.creating k, c, cc, out⟩ .call =
        ⟨.creating (k + 1), c, cc, out⟩ := rfl
    show pgArbRun (pgArbStep ⟨.creating k, c, cc, out⟩ .call)
      (List.replicate m .call) = _
    rw [hstep, ih (k + 1)]
    have : k + 1 + m = k + (m + 1) := by omega
    rw [this]

/-- C3 (spec-modelled, see `pgArbStep`): for any number `n ≥ 1` of
concurrent `get_or_create_pg` calls with creation info on the same absent
PG identity, followed by the completion of the creation they race on,
exactly one construction is driven, the storage layer receives at most one
collection-creation call (exactly one when the creation succeeds, none when
it is cancelled), and every one of the `n` callers observes the same
terminal outcome `res`. -/
theorem get_or_create_pg_single_construction (n : Nat) (res : Option Nat)
    (hn : 1 ≤ n) :
    (pgArbRun pgArbInit
      (List.replicate n .call ++ [.complete res])).constructions = 1 ∧
    (pgArbRun pgArbInit
      (List.replicate n .call ++ [.complete res])).collection_calls ≤ 1 ∧
    (pgArbRun pgArbInit
      (List.replicate n .call ++ [.complete res])).collection_calls =
      (match res with | some _ => 1 | none => 0) ∧
    (pgArbRun pgArbInit
      (List.replicate n .call ++ [.complete res])).outcomes =
      List.replicate n res := by
  obtain ⟨m, rfl⟩ : ∃ m, n = m + 1 := ⟨n - 1, (Nat.succ_pred_eq_of_pos hn).symm⟩
  have hcalls : pgArbRun pgArbInit (List.replicate (m + 1) .call) =
      ⟨.creating (1 + m), 1, 0, []⟩ := by
    rw [List.replicate_succ]
    show pgArbRun (pgArbStep pgArbInit .call) (List.replicate m .call) = _
    have hstep : pgArbStep pgArbInit .call = ⟨.creating 1, 1, 0, []⟩ := rfl
    rw [hstep, pgArbRun_calls_on_creating 1 1 0 [] m]
  have happ : pgArbRun pgArbInit (List.replicate (m + 1) .call ++ [.complete res]) =
      pgArbStep (pgArbRun pgArbInit (List.replicate (m + 1) .call)) (.complete res) := by
    rw [pgArbRun, List.foldl_append]
    rfl
  rw [happ, hcalls]
  rcases res with _ | pg
  · refine ⟨rfl, Nat.zero_le 1, rfl, ?_⟩
    show ([] : List (Option Nat)) ++ List.replicate (1 + m) none =
      List.replicate (m + 1) none
    rw [List.nil_append, Nat.add_comm 1 m]
  · refine ⟨rfl, Nat.le_refl 1, rfl, ?_⟩
    show ([] : List (Option Nat)) ++ List.replicate (1 + m) (some pg) =
      List.replicate (m + 1) (some pg)
    rw [List.nil_append, Nat.add_comm 1 m]

/-- C3 witness: two racing creation calls followed by a successful
completion yield one driven construction, one collection-creation call,
and both callers observing the same PG reference. -/
theorem get_or_create_pg_single_construction_witness :
    (pgArbRun pgArbInit
      (List.replicate 2 .call ++ [.complete (some 42)])).constructions = 1 ∧
    (pgArbRun pgArbInit
      (List.replicate 2 .call ++ [.complete (some 42)])).collection_calls ≤ 1 ∧
    (pgArbRun pgArbInit
      (List.replicate 2 .call ++ [.complete (some 42)])).collection_calls =
      (match some 42 with | some _ => 1 | none => 0) ∧
    (pgArbRun pgArbInit
      (List.replicate 2 .call ++ [.complete (some 42)])).outcomes =
      List.replicate 2 (some 42) :=
  get_or_create_pg_single_construction 2 (some 42) (by decide)

/-! ## Theorems for claims C7 and C9 -/

/-- C7: `send_alive(want)` sends an alive message to the monitor if and only
if `want` exceeds the recorded `up_thru_wanted`, osd `whoami` exists in the
current map, and `want` exceeds the map's acknowledged `up_thru`; in every
other case no message is sent; and the recorded `up_thru_wanted` value never
regresses — it becomes `max up_thru_wanted want`. -/
theorem send_alive_sends_iff_and_never_regresses
    (m : AliveMapView) (w want : Nat) :
    ((send_alive m w want).1.isSome ↔
      (want > w ∧ m.exists_whoami = true ∧ want > m.up_thru)) ∧
    (send_alive m w want).2 = max w want := by
  unfold send_alive
  by_cases h1 : want > w
  · have hmax : max w want = want := Nat.max_eq_right (Nat.le_of_lt h1)
    by_cases h2 : m.exists_whoami = false
    · simp [h1, h2, hmax]
    · have h2' : m.exists_whoami = true := by
        cases hb : m.exists_whoami
        · exact absurd hb h2
        · rfl
      by_cases h3 : want > m.up_thru
      · simp [h1, h2, h2', h3, hmax]
      · simp [h1, h2, h2', h3, hmax]
  · have hmax : max w want = w := Nat.max_eq_left (Nat.le_of_not_lt h1)
    simp [h1, hmax]

/-- C9: `load_map 0` always returns a freshly constructed empty `OSDMap`
and consults neither the encoded-byte cache nor the storage collaborator
(so it performs no I/O and cannot fail with not-found); for every epoch
`e + 1 > 0` it returns exactly the decode of the bytes obtained from
`load_map_bl (e + 1)`, propagating that call's not-found failure. -/
theorem load_map_zero_fresh_and_positive_decodes
    (map_bl_cache store : List (Nat × Nat)) (e : Nat) :
    load_map map_bl_cache store 0 = (.freshEmpty, false, false) ∧
    load_map map_bl_cache store (e + 1) =
      ((match (load_map_bl map_bl_cache store (e + 1)).1 with
        | some bl => decodeOSDMap bl
        | none => LoadedMap.notFound),
       true,
       (load_map_bl map_bl_cache store (e + 1)).2.2) := by
  constructor
  · rfl
  · unfold load_map
    simp only [Nat.succ_ne_zero, if_false]
    rcases h : load_map_bl map_bl_cache store (e + 1) with ⟨r, c, s⟩
    cases r <;> simp [h]

/-! ## Helper lemmas about the map-message byte loop and `load_map_bls` -/

theorem mapMsgByteLoop_cons_over (b : Int) (e : Nat) (ty : EncType)
    (len : Nat) (tl : List (Nat × EncType × Nat))
    (h : b - (len : Int) < 0) :
    mapMsgByteLoop b ((e, ty, len) :: tl) = ([], []) := by
  rw [mapMsgByteLoop, if_pos h]

theorem mapMsgByteLoop_cons_full (b : Int) (e len : Nat)
    (tl : List (Nat × EncType × Nat)) (h : ¬ b - (len : Int) < 0) :
    mapMsgByteLoop b ((e, EncType.fullmap, len) :: tl) =
      ((e, len) :: (mapMsgByteLoop (b - len) tl).1,
       (mapMsgByteLoop (b - len) tl).2) := by
  rw [mapMsgByteLoop, if_neg h]

theorem mapMsgByteLoop_cons_inc (b : Int) (e len : Nat)
    (tl : List (Nat × EncType × Nat)) (h : ¬ b - (len : Int) < 0) :
    mapMsgByteLoop b ((e, EncType.incmap, len) :: tl) =
      ((mapMsgByteLoop (b - len) tl).1,
       (e, len) :: (mapMsgByteLoop (b - len) tl).2) := by
  rw [mapMsgByteLoop, if_neg h]

theorem mapMsgByteLoop_sum_le (l : List (Nat × EncType × Nat)) (b : Int)
    (hb : 0 ≤ b) :
    ((sumLens (mapMsgByteLoop b l).1 : Int) +
     (sumLens (mapMsgByteLoop b l).2 : Int)) ≤ b := by
  induction l generalizing b with
  | nil => simpa [mapMsgByteLoop, sumLens] using hb
  | cons hd tl ih =>
    rcases hd with ⟨e, ty, len⟩
    by_cases hneg : b - (len : Int) < 0
    · rw [mapMsgByteLoop_cons_over b e ty len tl hneg]
      simpa [sumLens] using hb
    · have hih := ih (b - len) (le_of_not_lt hneg)
      have h2 : (len : Int) +
          ((sumLens (mapMsgByteLoop (b - len) tl).1 : Int) +
           (sumLens (mapMsgByteLoop (b - len) tl).2 : Int)) ≤ b := by
        have h3 := add_le_add_left hih (len : Int)
        rwa [add_comm (len : Int) (b - (len : Int)), sub_add_cancel] at h3
      cases ty
      · rw [mapMsgByteLoop_cons_full b e len tl hneg]
        simp only [sumLens, List.map_cons, List.sum_cons, Nat.cast_add]
        rw [add_assoc]
        exact h2
      · rw [mapMsgByteLoop_cons_inc b e len tl hneg]
        simp only [sumLens, List.map_cons, List.sum_cons, Nat.cast_add]
        rw [add_left_comm]
        exact h2

theorem mapMsgByteLoop_cons_len (b : Int) (e : Nat) (ty : EncType)
    (len : Nat) (tl : List (Nat × EncType × Nat))
    (h : ¬ b - (len : Int) < 0) :
    1 ≤ (mapMsgByteLoop b ((e, ty, len) :: tl)).1.length +
        (mapMsgByteLoop b ((e, ty, len) :: tl)).2.length := by
  cases ty
  · rw [mapMsgByteLoop_cons_full b e len tl h]
    simp only [List.length_cons]
    exact le_trans (Nat.le_add_left 1 _) (Nat.le_add_right _ _)
  · rw [mapMsgByteLoop_cons_inc b e len tl h]
    simp only [List.length_cons]
    exact le_trans (Nat.le_add_left 1 _) (Nat.le_add_left _ _)

theorem mapMsgByteLoop_subset (l : List (Nat × EncType × Nat)) (b : Int) :
    ∀ pr ∈ (mapMsgByteLoop b l).1 ++ (mapMsgByteLoop b l).2,
      ∃ ty, (pr.1, ty, pr.2) ∈ l := by
  induction l generalizing b with
  | nil => simp [mapMsgByteLoop]
  | cons hd tl ih =>
    rcases hd with ⟨e, ty, len⟩
    intro pr hpr
    by_cases hneg : b - (len : Int) < 0
    · rw [mapMsgByteLoop_cons_over b e ty len tl hneg] at hpr
      exact absurd hpr (by simp)
    · cases ty
      · rw [mapMsgByteLoop_cons_full b e len tl hneg] at hpr
        simp only [List.cons_append, List.mem_cons] at hpr
        rcases hpr with rfl | hpr'
        · exact ⟨EncType.fullmap, by simp⟩
        · obtain ⟨ty', hty'⟩ := ih (b - len) pr hpr'
          exact ⟨ty', List.mem_cons_of_mem _ hty'⟩
      · rw [mapMsgByteLoop_cons_inc b e len tl hneg] at hpr
        rcases List.mem_append.mp hpr with hpr' | hpr'
        · obtain ⟨ty', hty'⟩ := ih (b - len) pr
            (List.mem_append.mpr (Or.inl hpr'))
          exact ⟨ty', List.mem_cons_of_mem _ hty'⟩
        · rcases List.mem_cons.mp hpr' with rfl | hpr''
          · exact ⟨EncType.incmap, by simp⟩
          · obtain ⟨ty', hty'⟩ := ih (b - len) pr
              (List.mem_append.mpr (Or.inr hpr''))
            exact ⟨ty', List.mem_cons_of_mem _ hty'⟩

theorem loadedEntry_fst (env : MapMsgEnv) (e : Nat) :
    (loadedEntry env e).1 = e := by
  unfold loadedEntry
  rcases h : env.inc_len e with _ | l <;> simp [h]

theorem load_map_bls_mem_bounds (env : MapMsgEnv) (first last : Nat) :
    ∀ x ∈ load_map_bls env first last, first ≤ x.1 ∧ x.1 ≤ last := by
  intro x hx
  unfold load_map_bls at hx
  simp only [List.mem_map, List.mem_range] at hx
  obtain ⟨i, hi, rfl⟩ := hx
  rw [loadedEntry_fst]
  have h2 : i + first ≤ last := Nat.lt_succ_iff.mp (Nat.lt_sub_iff_add_lt.mp hi)
  exact ⟨Nat.le_add_right first i, by rw [Nat.add_comm]; exact h2⟩

theorem load_map_bls_head (env : MapMsgEnv) (first last : Nat)
    (h : first ≤ last) :
    ∃ tl, load_map_bls env first last = loadedEntry env first :: tl := by
  refine ⟨((List.range (last - first)).map Nat.succ).map
    (fun i => loadedEntry env (first + i)), ?_⟩
  unfold load_map_bls
  rw [Nat.sub_add_comm h, List.range_succ_eq_map, List.map_cons, Nat.add_zero]

theorem build_msg_rest_spec (env : MapMsgEnv) (mb : Int)
    (gap : Option (Nat × Nat)) (first : Nat) (mmm : Int) (last : Nat)
    (hmm : 0 ≤ mmm) (hmb : 0 ≤ mb) (hfl : first ≤ last) :
    ∃ msg, build_msg_rest env mb gap first mmm last = some msg ∧
      msg.gap_map = gap ∧
      ((sumLens msg.maps : Int) + (sumLens msg.incremental_maps : Int) ≤ mb) ∧
      (((loadedEntry env first).2.2 : Int) ≤ mb →
        1 ≤ msg.maps.length + msg.incremental_maps.length) ∧
      (∀ pr ∈ msg.maps ++ msg.incremental_maps,
        first ≤ pr.1 ∧ pr.1 ≤ last) := by
  have hng : ¬ first > last := Nat.not_lt.mpr hfl
  have hupper : ∃ u : Int,
      (if ((last : Int) - first) > mmm then (first : Int) + mmm else (last : Int)) = u ∧
      (first : Int) ≤ u ∧ u ≤ last := by
    by_cases hbig : ((last : Int) - first) > mmm
    · refine ⟨(first : Int) + mmm, if_pos hbig, le_add_of_nonneg_right hmm, ?_⟩
      rw [add_comm]
      exact le_of_lt (lt_sub_iff_add_lt.mp hbig)
    · exact ⟨(last : Int), if_neg hbig, by exact_mod_cast hfl, le_refl _⟩
  obtain ⟨u, hu, hul, huu⟩ := hupper
  have hnu : ¬ u < (first : Int) := not_lt.mpr hul
  have hu0 : (0 : Int) ≤ u := le_trans (Int.ofNat_nonneg first) hul
  have hfirst_le : first ≤ u.toNat := (Int.le_toNat hu0).mpr hul
  have hlast_ge : u.toNat ≤ last := Int.toNat_le.mpr huu
  refine ⟨⟨gap,
    (mapMsgByteLoop mb (load_map_bls env first u.toNat)).1,
    (mapMsgByteLoop mb (load_map_bls env first u.toNat)).2⟩, ?_, rfl, ?_, ?_, ?_⟩
  · rw [build_msg_rest, if_neg hng]
    simp only [hu, if_neg hnu]
  · exact mapMsgByteLoop_sum_le _ mb hmb
  · intro hfit
    obtain ⟨tl, htl⟩ := load_map_bls_head env first u.toNat hfirst_le
    rcases hent : loadedEntry env first with ⟨e, ty, len⟩
    rw [hent] at htl hfit
    have hfit' : (len : Int) ≤ mb := by simpa using hfit
    rw [htl]
    exact mapMsgByteLoop_cons_len mb e ty len tl
      (not_lt.mpr (sub_nonneg.mpr hfit'))
  · intro pr hpr
    obtain ⟨ty', hty'⟩ := mapMsgByteLoop_subset (load_map_bls env first u.toNat) mb pr hpr
    have hb := load_map_bls_mem_bounds env first u.toNat _ hty'
    simp only at hb
    exact ⟨hb.1, hb.2.trans hlast_ge⟩

theorem build_msg_rest_gap_short (env : MapMsgEnv) (mb : Int)
    (gap : Option (Nat × Nat)) (first : Nat) (mmm : Int) (last : Nat)
    (hgl : first > last) (hg : gap.isSome = true) :
    build_msg_rest env mb gap first mmm last = some ⟨gap, [], []⟩ := by
  rw [build_msg_rest, if_pos hgl, if_pos hg]

theorem build_msg_rest_entry_bounds (env : MapMsgEnv) (mb : Int)
    (gap : Option (Nat × Nat)) (first : Nat) (mmm : Int) (last : Nat)
    (msg : BuiltMOSDMap)
    (h : build_msg_rest env mb gap first mmm last = some msg) :
    ∀ pr ∈ msg.maps ++ msg.incremental_maps, first ≤ pr.1 ∧ pr.1 ≤ last := by
  by_cases hgl : first > last
  · rw [build_msg_rest, if_pos hgl] at h
    by_cases hg : gap.isSome = true
    · rw [if_pos hg] at h
      injection h with h'
      rw [← h']
      simp
    · rw [if_neg hg] at h
      cases h
  · rw [build_msg_rest, if_neg hgl] at h
    by_cases hnu : (if ((last : Int) - first) > mmm then (first : Int) + mmm
        else (last : Int)) < (first : Int)
    · rw [if_pos hnu] at h
      cases h
    · rw [if_neg hnu] at h
      injection h with h'
      rw [← h']
      intro pr hpr
      obtain ⟨ty', hty'⟩ := mapMsgByteLoop_subset _ mb pr hpr
      have hb := load_map_bls_mem_bounds env first _ _ hty'
      simp only at hb
      have hup : (if ((last : Int) - first) > mmm then (first : Int) + mmm
          else (last : Int)) ≤ (last : Int) := by
        by_cases hbig : ((last : Int) - first) > mmm
        · rw [if_pos hbig, add_comm]
          exact le_of_lt (lt_sub_iff_add_lt.mp hbig)
        · rw [if_neg hbig]
      exact ⟨hb.1, hb.2.trans (Int.toNat_le.mpr hup)⟩

theorem build_incremental_map_msg_entry_bounds (conf : MapMsgConf)
    (env : MapMsgEnv) (first last : Nat) (msg : BuiltMOSDMap)
    (h : build_incremental_map_msg conf env first last = some msg) :
    ∀ pr ∈ msg.maps ++ msg.incremental_maps, first ≤ pr.1 ∧ pr.1 ≤ last := by
  by_cases hgap : first < env.cluster_osdmap_trim_lower_bound
  · rw [build_incremental_map_msg, if_pos hgap] at h
    intro pr hpr
    have hb := build_msg_rest_entry_bounds _ _ _ _ _ _ _ h pr hpr
    exact ⟨le_trans (le_of_lt hgap) (le_trans (Nat.le_succ _) hb.1), hb.2⟩
  · rw [build_incremental_map_msg, if_neg hgap] at h
    exact build_msg_rest_entry_bounds _ _ _ _ _ _ _ h

/-! ## Theorems for claim C4 (`build_incremental_map_msg`) -/

/-- C4 counterexample: with byte budget `osd_map_message_max_bytes = 10`, a
single requested epoch (`first = last = 1`, no map gap) whose only stored
encoding is 11 bytes long yields a message with NO map entries at all — the
byte loop subtracts the length and breaks before inserting — refuting
"returns at least one map entry even when that single entry alone exceeds
the byte budget". -/
theorem build_incremental_map_msg_empty_when_oversized :
    build_incremental_map_msg ⟨40, 10⟩ ⟨0, 100, fun _ => 11, fun _ => none⟩ 1 1 =
      some ⟨none, [], []⟩ := rfl

/-- C4 (amended): for `first ≤ last`, a nonnegative byte budget and a
positive epoch budget, `build_incremental_map_msg` succeeds; the total byte
size of the non-gap-fill entries never exceeds the configured
`osd_map_message_max_bytes` at all (the loop admits no overflowing entry,
so no "plus one oversized entry" slack is ever used); a gap-fill full map
is present whenever `first` lies below the trim lower bound; and the
message contains at least one entry whenever there is no gap and the first
loaded entry fits in the byte budget — while (see the counterexample) it
can be empty when that single entry alone exceeds the budget. -/
theorem build_incremental_map_msg_bounded
    (conf : MapMsgConf) (env : MapMsgEnv) (first last : Nat)
    (hfl : first ≤ last) (hbytes : 0 ≤ conf.osd_map_message_max_bytes)
    (hmax : 1 ≤ conf.osd_map_message_max) :
    ∃ msg, build_incremental_map_msg conf env first last = some msg ∧
      ((sumLens msg.maps : Int) + (sumLens msg.incremental_maps : Int) ≤
        conf.osd_map_message_max_bytes) ∧
      (first < env.cluster_osdmap_trim_lower_bound →
        msg.gap_map.isSome = true) ∧
      (env.cluster_osdmap_trim_lower_bound ≤ first →
        ((loadedEntry env first).2.2 : Int) ≤ conf.osd_map_message_max_bytes →
        1 ≤ msg.maps.length + msg.incremental_maps.length) := by
  by_cases hgap : first < env.cluster_osdmap_trim_lower_bound
  · have hmm : (0 : Int) ≤ conf.osd_map_message_max - 1 := by omega
    by_cases hover : env.cluster_osdmap_trim_lower_bound + 1 > last
    · refine ⟨⟨some (env.cluster_osdmap_trim_lower_bound,
          env.full_len env.cluster_osdmap_trim_lower_bound), [], []⟩,
        ?_, ?_, ?_, ?_⟩
      · rw [build_incremental_map_msg, if_pos hgap]
        exact build_msg_rest_gap_short _ _ _ _ _ _ hover rfl
      · simpa [sumLens] using hbytes
      · intro _
        rfl
      · intro hle
        exact absurd hle (not_le.mpr hgap)
    · have hfl' : env.cluster_osdmap_trim_lower_bound + 1 ≤ last :=
        Nat.le_of_not_lt hover
      obtain ⟨msg, hmsg, hgapm, hsum, hne, hbounds⟩ :=
        build_msg_rest_spec env conf.osd_map_message_max_bytes
          (some (env.cluster_osdmap_trim_lower_bound,
                env.full_len env.cluster_osdmap_trim_lower_bound))
          (env.cluster_osdmap_trim_lower_bound + 1)
          (conf.osd_map_message_max - 1) last hmm hbytes hfl'
      refine ⟨msg, ?_, hsum, ?_, ?_⟩
      · rw [build_incremental_map_msg, if_pos hgap]
        exact hmsg
      · intro _
        rw [hgapm]
        rfl
      · intro hle
        exact absurd hle (not_le.mpr hgap)
  · have hmm : (0 : Int) ≤ conf.osd_map_message_max := by omega
    obtain ⟨msg, hmsg, hgapm, hsum, hne, hbounds⟩ :=
      build_msg_rest_spec env conf.osd_map_message_max_bytes none first
        conf.osd_map_message_max last hmm hbytes hfl
    refine ⟨msg, ?_, hsum, ?_, fun _ hfit => hne hfit⟩
    · rw [build_incremental_map_msg, if_neg hgap]
      exact hmsg
    · intro hc
      exact absurd hc hgap

/-- C4 witness: the amended statement evaluated on a two-epoch request with
7-byte encodings under a 10-byte budget. -/
theorem build_incremental_map_msg_bounded_witness :
    ∃ msg, build_incremental_map_msg ⟨40, 10⟩
        ⟨0, 100, fun _ => 7, fun _ => none⟩ 1 2 = some msg ∧
      ((sumLens msg.maps : Int) + (sumLens msg.incremental_maps : Int) ≤
        (⟨40, 10⟩ : MapMsgConf).osd_map_message_max_bytes) ∧
      (1 < (⟨0, 100, fun _ => 7, fun _ => none⟩ :
          MapMsgEnv).cluster_osdmap_trim_lower_bound →
        msg.gap_map.isSome = true) ∧
      ((⟨0, 100, fun _ => 7, fun _ => none⟩ :
          MapMsgEnv).cluster_osdmap_trim_lower_bound ≤ 1 →
        ((loadedEntry ⟨0, 100, fun _ => 7, fun _ => none⟩ 1).2.2 : Int) ≤
          (⟨40, 10⟩ : MapMsgConf).osd_map_message_max_bytes →
        1 ≤ msg.maps.length + msg.incremental_maps.length) :=
  build_incremental_map_msg_bounded ⟨40, 10⟩
    ⟨0, 100, fun _ => 7, fun _ => none⟩ 1 2
    (by decide) (by decide) (by decide)

/-! ## Theorems for claim C10 (`send_incremental_map`) -/

/-- C10: `send_incremental_map(conn, first)` clamps the requested start:
whenever the current epoch `to` exceeds `first` by more than
`osd_map_share_max_epochs`, `first` is raised to
`to - osd_map_share_max_epochs` before building the message; consequently
every non-gap-fill entry of the built update lies in `[clamped first, to]`
and within the configured number of most recent epochs below `to`. -/
theorem send_incremental_map_clamps_range
    (conf : MapMsgConf) (env : MapMsgEnv) (S : Int) (toE first : Nat)
    (hS : 0 ≤ S) (hfl : first ≤ toE) :
    (((toE : Int) - first) > S →
      ((send_incremental_map conf env S toE first).1 : Int) = (toE : Int) - S) ∧
    (∀ msg, (send_incremental_map conf env S toE first).2 = some msg →
      ∀ pr ∈ msg.maps ++ msg.incremental_maps,
        (send_incremental_map conf env S toE first).1 ≤ pr.1 ∧ pr.1 ≤ toE ∧
          ((toE : Int) - pr.1) ≤ S) := by
  by_cases hc : toE > first ∧ ((toE : Int) - (first : Int)) > S
  · have hfst : (send_incremental_map conf env S toE first).1 =
        ((toE : Int) - S).toNat := by
      show (if toE > first ∧ ((toE : Int) - first) > S
        then ((toE : Int) - S).toNat else first) = _
      rw [if_pos hc]
    have hsnd : (send_incremental_map conf env S toE first).2 =
        build_incremental_map_msg conf env ((toE : Int) - S).toNat toE := by
      show build_incremental_map_msg conf env
        (if toE > first ∧ ((toE : Int) - first) > S
          then ((toE : Int) - S).toNat else first) toE = _
      rw [if_pos hc]
    have hlt : ((first : Int)) < (toE : Int) - S :=
      lt_sub_iff_add_lt.mpr (by
        rw [add_comm]
        exact lt_sub_iff_add_lt.mp hc.2)
    have hnn : (0 : Int) ≤ (toE : Int) - S :=
      le_of_lt (lt_of_le_of_lt (Int.ofNat_nonneg first) hlt)
    constructor
    · intro _
      rw [hfst]
      exact Int.toNat_of_nonneg hnn
    · intro msg hmsg pr hpr
      rw [hsnd] at hmsg
      have hb := build_incremental_map_msg_entry_bounds conf env _ toE msg hmsg pr hpr
      rw [hfst]
      refine ⟨hb.1, hb.2, ?_⟩
      have h1' : (toE : Int) - S ≤ (pr.1 : Int) := by
        rw [← Int.toNat_of_nonneg hnn]
        exact_mod_cast hb.1
      exact sub_le_comm.mp h1'
  · have hfst : (send_incremental_map conf env S toE first).1 = first := by
      show (if toE > first ∧ ((toE : Int) - first) > S
        then ((toE : Int) - S).toNat else first) = _
      rw [if_neg hc]
    have hsnd : (send_incremental_map conf env S toE first).2 =
        build_incremental_map_msg conf env first toE := by
      show build_incremental_map_msg conf env
        (if toE > first ∧ ((toE : Int) - first) > S
          then ((toE : Int) - S).toNat else first) toE = _
      rw [if_neg hc]
    have hsmall : ((toE : Int) - first) ≤ S := by
      rcases Nat.lt_or_ge first toE with hlt | hlt
      · by_contra hcon
        exact hc ⟨hlt, not_le.mp hcon⟩
      · have hef : toE = first := Nat.le_antisymm hlt hfl
        rw [hef, sub_self]
        exact hS
    constructor
    · intro hbig
      exact absurd hbig (not_lt.mpr hsmall)
    · intro msg hmsg pr hpr
      rw [hsnd] at hmsg
      have hb := build_incremental_map_msg_entry_bounds conf env first toE msg hmsg pr hpr
      rw [hfst]
      refine ⟨hb.1, hb.2, ?_⟩
      have h1' : ((first : Int)) ≤ (pr.1 : Int) := Int.ofNat_le.mpr hb.1
      exact (sub_le_sub_left h1' (toE : Int)).trans hsmall

/-- C10 witness: with `osd_map_share_max_epochs = 2`, a request starting at
epoch 1 against current epoch 10 is clamped to start at epoch 8. -/
theorem send_incremental_map_clamps_range_witness :
    ((send_incremental_map ⟨40, 100⟩ ⟨0, 100, fun _ => 1, fun _ => none⟩
        2 10 1).1 : Int) = (10 : Int) - 2 :=
  (send_incremental_map_clamps_range ⟨40, 100⟩
    ⟨0, 100, fun _ => 1, fun _ => none⟩ 2 10 1
    (by decide) (by decide)).1 (by decide)

end CrimsonOSD
